import Mathlib

/-!
Shallow embedding of the rule-evaluation and access-accounting engine of the
"throttle-me-bananas" browser extension, translated from
`src/utils/url-matcher.js`, `src/utils/time-utils.js`,
`src/utils/access-calculator.js` and `src/background/rule-engine.js`,
together with theorems settling the frozen claims about that engine.

Modelling conventions:
* JavaScript strings are Lean `String`s; the builtin `endsWith` / `startsWith`
  tests are embedded as suffix / prefix tests on the underlying character
  lists.
* A parsed platform `URL` object is represented by its observable components
  `hostname` and `pathname`; a URL string that the platform parser rejects is
  represented by `none`.
* A JavaScript `Date` is represented by its observable projections used by the
  code: `getTime` (epoch milliseconds), `getDay`, `getHours`, `getMinutes`.
* `parseInt` on the schedule literals is embedded as decimal parsing of the
  longest digit prefix, with `none` standing for `NaN`.
* Machine numbers in play (timestamps, durations, counts) are far below 2^53,
  so JavaScript number arithmetic on them is exact and is embedded as `Int`
  arithmetic.
-/

/-- Observable components of a successfully parsed platform URL object. -/
structure URLParts where
  hostname : String
  pathname : String
deriving Repr, DecidableEq

/-- Embedding of JavaScript `s.endsWith(suffix)`. -/
def jsEndsWith (s suffix : String) : Bool :=
  suffix.data.isSuffixOf s.data

/-- Embedding of JavaScript `s.startsWith(p)`. -/
def jsStartsWith (s p : String) : Bool :=
  p.data.isPrefixOf s.data

/-- Split a character list at the first `'/'`: the pair of the part before it
and everything after it (empty when there is no `'/'`).  This is how
`pattern.split('/')` followed by `parts[0]` and `parts.slice(1).join('/')`
decomposes a pattern. -/
def breakAtSlash : List Char → List Char × List Char
  | [] => ([], [])
  | c :: cs =>
    if c = '/' then ([], cs)
    else
      let p := breakAtSlash cs
      (c :: p.1, p.2)

/-- Domain portion of a site pattern: `pattern.split('/')[0]`. -/
def patternDomain (pattern : String) : String :=
  String.mk (breakAtSlash pattern.data).1

/-- Path portion of a site pattern:
`pattern.split('/').slice(1).join('/')`. -/
def patternPath (pattern : String) : String :=
  String.mk (breakAtSlash pattern.data).2

/-- Embedding of `extractDomain` (url-matcher.js): the parsed URL's hostname,
or the empty string when parsing failed. -/
def extractDomain : Option URLParts → String
  | some u => u.hostname
  | none => ""

/-- Embedding of `extractPath` (url-matcher.js): the parsed URL's pathname,
or the empty string when parsing failed. -/
def extractPath : Option URLParts → String
  | some u => u.pathname
  | none => ""

/-- Embedding of `path.startsWith('/') ? path.slice(1) : path`. -/
def stripLeadingSlash (path : String) : String :=
  if jsStartsWith path "/" then String.mk path.data.tail else path

/-- Embedding of `matchesSitePattern` (url-matcher.js).  The first argument is
the parse result of the destination URL string. -/
def matchesSitePattern (url : Option URLParts) (pattern : String) : Bool :=
  let domain := extractDomain url
  let path := extractPath url
  if domain = "" ∨ pattern = "" then false
  else
    let pd := patternDomain pattern
    let pp := patternPath pattern
    let domainMatches := domain = pd || jsEndsWith domain ("." ++ pd)
    if !domainMatches then false
    else if pp = "" then true
    else
      let normalizedPath := stripLeadingSlash path
      normalizedPath = pp || jsStartsWith normalizedPath (pp ++ "/")

/-- Model of the platform URL constructor applied to the synthetic string
`"https://" ++ site` that the rule engine builds from a bare site string: the
part of `site` before the first `'/'` becomes the hostname and the rest the
pathname (defaulting to `"/"`), and parsing fails on an empty input. -/
def syntheticUrl (site : String) : Option URLParts :=
  if site = "" then none
  else
    let p := breakAtSlash site.data
    if p.1 = [] then none
    else some ⟨String.mk p.1, String.mk ('/' :: p.2)⟩

example : matchesSitePattern (some ⟨"chat.discord.com", "/"⟩) "discord.com" = true := by decide
example : matchesSitePattern (some ⟨"mydiscordx.com", "/"⟩) "discord.com" = false := by decide
example : matchesSitePattern (some ⟨"discord.com", "/channels/123"⟩) "discord.com/channels" = true := by decide
example : matchesSitePattern (some ⟨"discord.com", "/channelsettings"⟩) "discord.com/channels" = false := by decide

/-- Observable projections of a JavaScript `Date` used by the engine:
`getTime()` in epoch milliseconds, `getDay()` (0 = Sunday .. 6 = Saturday),
`getHours()` and `getMinutes()` in local wall-clock time. -/
structure Instant where
  epochMs : Int
  day : Int
  hours : Int
  minutes : Int
deriving Repr, DecidableEq

/-- Minute-of-day of an instant, as computed by `isTimeInRange`
(`getHours() * 60 + getMinutes()`). -/
def minuteOfDay (now : Instant) : Int :=
  now.hours * 60 + now.minutes

/-- One endpoint of a parsed schedule time range; `none` components model the
`NaN` that `parseInt` produces on non-numeric text. -/
structure TimePoint where
  hours : Option Int
  minutes : Option Int
deriving Repr, DecidableEq

/-- Numeric value of a digit character. -/
def digitVal (c : Char) : Nat :=
  c.toNat - 48

/-- Value of the longest digit prefix of a character list, accumulator style. -/
def takeDigitsVal : List Char → Nat → Nat
  | c :: cs, acc => if c.isDigit then takeDigitsVal cs (acc * 10 + digitVal c) else acc
  | [], acc => acc

/-- Embedding of `parseInt(s, 10)` on the non-negative decimal literals the
schedule format uses: the value of the longest digit prefix, or `none`
(modelling `NaN`) when the text does not start with a digit. -/
def jsParseInt (l : List Char) : Option Int :=
  match l with
  | [] => none
  | c :: _ => if c.isDigit then some ((takeDigitsVal l 0 : Nat) : Int) else none

/-- Embedding of `s.slice(a, b)` on character lists (for `0 ≤ a ≤ b`). -/
def jsSlice (l : List Char) (a b : Nat) : List Char :=
  (l.drop a).take (b - a)

/-- Embedding of `s.split('-')`. -/
def splitDashAux : List Char → List Char → List (List Char)
  | [], acc => [acc.reverse]
  | c :: cs, acc => if c = '-' then acc.reverse :: splitDashAux cs [] else splitDashAux cs (c :: acc)

/-- Parse one endpoint of a time-range literal:
`hours = parseInt(part.slice(0, 2), 10)`, `minutes = parseInt(part.slice(2, 4), 10)`. -/
def parseTimePoint (s : List Char) : TimePoint :=
  { hours := jsParseInt (jsSlice s 0 2), minutes := jsParseInt (jsSlice s 2 4) }

/-- Embedding of `parseTimeRange` (time-utils.js).  When the literal has no
`'-'`, the JavaScript destructuring leaves `end` undefined and the code throws
on `end.slice`; that thrown path is modelled by `none`. -/
def parseTimeRange (timeString : String) : Option (TimePoint × TimePoint) :=
  match splitDashAux timeString.data [] with
  | s :: e :: _ => some (parseTimePoint s, parseTimePoint e)
  | _ => none

/-- Minute-of-day denoted by a time point: `hours * 60 + minutes`, which is
`NaN` (`none`) as soon as either component is. -/
def timePointMinutes (t : TimePoint) : Option Int :=
  match t.hours, t.minutes with
  | some h, some m => some (h * 60 + m)
  | _, _ => none

/-- Embedding of `isTimeInRange` (time-utils.js): both comparisons are false
when an endpoint is `NaN`, hence the `none` branches. -/
def isTimeInRange (currentTime : Instant) (startT endT : TimePoint) : Bool :=
  match timePointMinutes startT, timePointMinutes endT with
  | some s, some e => s ≤ minuteOfDay currentTime && minuteOfDay currentTime ≤ e
  | _, _ => false

/-- A rule group's optional weekly schedule.  The `Option` fields model the
JavaScript falsiness checks `!schedule.days` / `!schedule.times` on absent
fields of shape-valid data. -/
structure Schedule where
  days : Option (List Int)
  times : Option (List String)
deriving Repr, DecidableEq

/-- Embedding of `isRuleActiveNow` (time-utils.js), with the `new Date()` it
samples passed in as `now`. -/
def isRuleActiveNow (schedule : Option Schedule) (now : Instant) : Bool :=
  match schedule with
  | none => true
  | some sched =>
    match sched.days, sched.times with
    | some days, some times =>
      if !days.contains now.day then false
      else
        times.any fun timeRange =>
          match parseTimeRange timeRange with
          | some r => isTimeInRange now r.1 r.2
          | none => false
    | _, _ => true

example : parseTimeRange "0900-1700" =
    some (⟨some 9, some 0⟩, ⟨some 17, some 0⟩) := by decide
example : isRuleActiveNow (some ⟨some [1, 2, 3, 4, 5], some ["0900-1700"]⟩)
    ⟨0, 1, 10, 0⟩ = true := by decide
example : isRuleActiveNow (some ⟨some [1, 2, 3, 4, 5], some ["0900-1700"]⟩)
    ⟨0, 1, 8, 0⟩ = false := by decide
example : isRuleActiveNow (some ⟨some [1, 2, 3, 4, 5], some ["0900-1700"]⟩)
    ⟨0, 0, 10, 0⟩ = false := by decide

/-- One logged access event (storage/schema.js `AccessLog`). -/
structure AccessLog where
  site : String
  timestamp : Int
  tabId : Int
deriving Repr, DecidableEq

/-- One named policy (storage/schema.js `RuleGroup`).  `duration` is the
rolling-window width in minutes. -/
structure RuleGroup where
  name : String
  duration : Int
  maxAccesses : Int
  strictMode : Bool
  sites : List String
  schedule : Option Schedule
deriving Repr, DecidableEq

/-- The full configuration (storage/schema.js `Configuration`).  A `null`
configuration reaching the engine is modelled by `Option Configuration`. -/
structure Configuration where
  groups : List RuleGroup
deriving Repr, DecidableEq

/-- Embedding of `filterAccessesInWindow` (access-calculator.js), with the
`Date.now()` it samples passed in as `now`. -/
def filterAccessesInWindow (accesses : List AccessLog) (durationMinutes : Int)
    (now : Instant) : List AccessLog :=
  let windowStart := now.epochMs - durationMinutes * 60 * 1000
  accesses.filter fun access => windowStart ≤ access.timestamp

/-- Strict-mode relevance test inlined in `calculateRemainingAccesses`
(access-calculator.js lines 44-61): the access site must equal the pattern's
domain portion or be a subdomain of it; a pattern's path portion is never
consulted (the code returns true there, noting access logs carry no path). -/
def strictSiteMatches (accessSite : String) (sitePattern : String) : Bool :=
  let pd := patternDomain sitePattern
  let pp := patternPath sitePattern
  let domainMatches := accessSite = pd || jsEndsWith accessSite ("." ++ pd)
  if !domainMatches then false
  else if pp = "" then true
  else true

/-- Embedding of `calculateRemainingAccesses` (access-calculator.js). -/
def calculateRemainingAccesses (accesses : List AccessLog) (maxAccesses : Int)
    (durationMinutes : Int) (strictMode : Bool) (sites : List String)
    (currentSite : String) (now : Instant) : Int :=
  let recentAccesses := filterAccessesInWindow accesses durationMinutes now
  let relevantAccesses :=
    if strictMode then
      recentAccesses.filter fun access => sites.any fun p => strictSiteMatches access.site p
    else
      recentAccesses.filter fun access => access.site = currentSite
  max 0 (maxAccesses - relevantAccesses.length)

/-- Embedding of `getActiveRulesForSite` (rule-engine.js), with the instant
sampled inside `isRuleActiveNow` passed in as `now`. -/
def getActiveRulesForSite (site : String) (config : Option Configuration)
    (now : Instant) : List RuleGroup :=
  match config with
  | none => []
  | some config =>
    config.groups.filter fun group =>
      if !isRuleActiveNow group.schedule now then false
      else group.sites.any fun pattern => matchesSitePattern (syntheticUrl site) pattern

/-- Remaining allowance of one rule for a site, exactly the
`calculateRemainingAccesses(accessLogs, rule.maxAccesses, rule.duration,
rule.strictMode, rule.sites, site)` call the rule engine makes per rule. -/
def ruleRemaining (accessLogs : List AccessLog) (site : String) (now : Instant)
    (rule : RuleGroup) : Int :=
  calculateRemainingAccesses accessLogs rule.maxAccesses rule.duration
    rule.strictMode rule.sites site now

/-- Result of `shouldBlockAccess`: either `{block: false}` or the populated
`{block: true, reason, ruleName, duration, maxAccesses}` object. -/
inductive BlockDecision where
  | allowed
  | blocked (reason : String) (ruleName : String) (duration : Int) (maxAccesses : Int)
deriving Repr, DecidableEq

/-- The `block` field of a decision object. -/
def BlockDecision.block : BlockDecision → Bool
  | .allowed => false
  | .blocked _ _ _ _ => true

/-- The reason string `shouldBlockAccess` reports for an exhausted rule. -/
def blockReason (ruleName : String) : String :=
  "Access limit reached for rule \"" ++ ruleName ++ "\""

/-- The `for (const rule of activeRules)` loop body of `shouldBlockAccess`. -/
def shouldBlockLoop (accessLogs : List AccessLog) (site : String) (now : Instant) :
    List RuleGroup → BlockDecision
  | [] => .allowed
  | rule :: rest =>
    let remaining := ruleRemaining accessLogs site now rule
    if remaining ≤ 0 then
      .blocked (blockReason rule.name) rule.name rule.duration rule.maxAccesses
    else shouldBlockLoop accessLogs site now rest

/-- Embedding of `shouldBlockAccess` (rule-engine.js). -/
def shouldBlockAccess (site : String) (config : Option Configuration)
    (accessLogs : List AccessLog) (now : Instant) : BlockDecision :=
  let activeRules := getActiveRulesForSite site config now
  if activeRules.isEmpty then .allowed
  else shouldBlockLoop accessLogs site now activeRules

/-- The `lowestRemaining` fold of `getMostRestrictiveCount`, with `none`
modelling the JavaScript `Infinity` start value (`Math.min(Infinity, x) = x`). -/
def lowestRemainingFold (accessLogs : List AccessLog) (site : String) (now : Instant)
    (activeRules : List RuleGroup) : Option Int :=
  activeRules.foldl
    (fun acc rule =>
      match acc with
      | none => some (ruleRemaining accessLogs site now rule)
      | some v => some (min v (ruleRemaining accessLogs site now rule)))
    none

/-- Embedding of `getMostRestrictiveCount` (rule-engine.js); `none` is the
JavaScript `null` (including the final `lowestRemaining === Infinity` check). -/
def getMostRestrictiveCount (site : String) (config : Option Configuration)
    (accessLogs : List AccessLog) (now : Instant) : Option Int :=
  let activeRules := getActiveRulesForSite site config now
  if activeRules.length = 0 then none
  else lowestRemainingFold accessLogs site now activeRules

/-- Embedding of `calculateUnblockTime` (rule-engine.js); the returned `Date`
is represented by its epoch-millisecond value.  The JavaScript in-place
`sort((a, b) => a.timestamp - b.timestamp)` is embedded as a stable sort by
timestamp. -/
def calculateUnblockTime (site : String) (rule : RuleGroup)
    (accessLogs : List AccessLog) : Option Int :=
  let relevantLogs :=
    if rule.strictMode then
      accessLogs.filter fun log =>
        rule.sites.any fun pattern => matchesSitePattern (syntheticUrl log.site) pattern
    else
      accessLogs.filter fun log => log.site = site
  let sorted := relevantLogs.insertionSort fun a b => a.timestamp ≤ b.timestamp
  match sorted with
  | [] => none
  | oldest :: _ => some (oldest.timestamp + rule.duration * 60 * 1000)

example :
    shouldBlockAccess "example.com"
      (some ⟨[⟨"Simple", 60, 3, false, ["example.com"], none⟩]⟩)
      [⟨"example.com", 9999000, 1⟩, ⟨"example.com", 9998000, 2⟩, ⟨"example.com", 9997000, 3⟩]
      ⟨10000000, 1, 10, 0⟩ =
      .blocked (blockReason "Simple") "Simple" 60 3 := by decide

example :
    getMostRestrictiveCount "example.com"
      (some ⟨[⟨"Simple", 60, 3, false, ["example.com"], none⟩]⟩)
      [⟨"example.com", 9999000, 1⟩, ⟨"example.com", 9998000, 2⟩]
      ⟨10000000, 1, 10, 0⟩ = some 1 := by decide

example :
    calculateUnblockTime "example.com" ⟨"Simple", 60, 3, false, ["example.com"], none⟩
      [⟨"example.com", 9999000, 1⟩, ⟨"example.com", 9997000, 3⟩] =
      some (9997000 + 60 * 60 * 1000) := by decide

/-!
Clock-instrumented embedding.  In the JavaScript source the engine operations
do not receive an instant: `isRuleActiveNow` executes `new Date()` and
`filterAccessesInWindow` executes `Date.now()` themselves, each time one of
them runs.  To reason about how often the ambient clock is consulted, the same
functions are re-embedded with an explicit clock: `clock : Nat → Instant`
yields the successive samples, and every function receives the index of the
next unread sample and returns the index after it ran.  The pair's second
component minus the input index is therefore exactly the number of times the
JavaScript code would have read the system clock.
-/

/-- Successive values returned by the ambient system clock. -/
abbrev ClockSamples := Nat → Instant

/-- Clock-instrumented `isRuleActiveNow`: one sample (`new Date()`) unless the
schedule is absent or incomplete, in which case the code returns before
reaching `new Date()`. -/
def isRuleActiveNowClk (schedule : Option Schedule) (clock : ClockSamples)
    (i : Nat) : Bool × Nat :=
  match schedule with
  | none => (true, i)
  | some sched =>
    match sched.days, sched.times with
    | some days, some times =>
      let now := clock i
      ((if !days.contains now.day then false
        else
          times.any fun timeRange =>
            match parseTimeRange timeRange with
            | some r => isTimeInRange now r.1 r.2
            | none => false),
       i + 1)
    | _, _ => (true, i)

/-- Clock-instrumented `filterAccessesInWindow`: exactly one `Date.now()`. -/
def filterAccessesInWindowClk (accesses : List AccessLog) (durationMinutes : Int)
    (clock : ClockSamples) (i : Nat) : List AccessLog × Nat :=
  (filterAccessesInWindow accesses durationMinutes (clock i), i + 1)

/-- Clock-instrumented `calculateRemainingAccesses`. -/
def calculateRemainingAccessesClk (accesses : List AccessLog) (maxAccesses : Int)
    (durationMinutes : Int) (strictMode : Bool) (sites : List String)
    (currentSite : String) (clock : ClockSamples) (i : Nat) : Int × Nat :=
  let recent := filterAccessesInWindowClk accesses durationMinutes clock i
  let relevantAccesses :=
    if strictMode then
      recent.1.filter fun access => sites.any fun p => strictSiteMatches access.site p
    else
      recent.1.filter fun access => access.site = currentSite
  (max 0 (maxAccesses - relevantAccesses.length), recent.2)

/-- Clock-instrumented `config.groups.filter(...)` loop of
`getActiveRulesForSite`: the filter callback runs `isRuleActiveNow` once per
group, in order. -/
def groupsFilterClk (site : String) (clock : ClockSamples) :
    List RuleGroup → Nat → List RuleGroup × Nat
  | [], i => ([], i)
  | group :: rest, i =>
    let active := isRuleActiveNowClk group.schedule clock i
    let keep :=
      if !active.1 then false
      else group.sites.any fun pattern => matchesSitePattern (syntheticUrl site) pattern
    let tail := groupsFilterClk site clock rest active.2
    (if keep then group :: tail.1 else tail.1, tail.2)

/-- Clock-instrumented `getActiveRulesForSite`. -/
def getActiveRulesForSiteClk (site : String) (config : Option Configuration)
    (clock : ClockSamples) (i : Nat) : List RuleGroup × Nat :=
  match config with
  | none => ([], i)
  | some config => groupsFilterClk site clock config.groups i

/-- Clock-instrumented rule loop of `shouldBlockAccess`: each iteration's
`calculateRemainingAccesses` call reads the clock once. -/
def shouldBlockLoopClk (accessLogs : List AccessLog) (site : String)
    (clock : ClockSamples) : List RuleGroup → Nat → BlockDecision × Nat
  | [], i => (.allowed, i)
  | rule :: rest, i =>
    let rem := calculateRemainingAccessesClk accessLogs rule.maxAccesses rule.duration
      rule.strictMode rule.sites site clock i
    if rem.1 ≤ 0 then
      (.blocked (blockReason rule.name) rule.name rule.duration rule.maxAccesses, rem.2)
    else shouldBlockLoopClk accessLogs site clock rest rem.2

/-- Clock-instrumented `shouldBlockAccess`. -/
def shouldBlockAccessClk (site : String) (config : Option Configuration)
    (accessLogs : List AccessLog) (clock : ClockSamples) (i : Nat) :
    BlockDecision × Nat :=
  let active := getActiveRulesForSiteClk site config clock i
  if active.1.isEmpty then (.allowed, active.2)
  else shouldBlockLoopClk accessLogs site clock active.1 active.2

/-!
Helper lemmas.
-/

theorem jsStartsWith_iff (s p : String) :
    jsStartsWith s p = true ↔ ∃ u : String, s = p ++ u := by
  unfold jsStartsWith
  rw [List.isPrefixOf_iff_prefix]
  constructor
  · rintro ⟨t, ht⟩
    refine ⟨String.mk t, String.ext ?_⟩
    rw [String.data_append]
    exact ht.symm
  · rintro ⟨u, rfl⟩
    exact ⟨u.data, (String.data_append p u).symm⟩

theorem jsEndsWith_iff (s suffix : String) :
    jsEndsWith s suffix = true ↔ ∃ u : String, s = u ++ suffix := by
  unfold jsEndsWith
  rw [List.isSuffixOf_iff_suffix]
  constructor
  · rintro ⟨t, ht⟩
    refine ⟨String.mk t, String.ext ?_⟩
    rw [String.data_append]
    exact ht.symm
  · rintro ⟨u, rfl⟩
    exact ⟨u.data, (String.data_append u suffix).symm⟩

/-- The code's domain test (`domain == patternDomain ||
domain.endsWith('.' + patternDomain)`) holds exactly when the host equals the
pattern domain or is a subdomain of it. -/
theorem domainMatch_iff (host pd : String) :
    (host = pd || jsEndsWith host ("." ++ pd)) = true ↔
      host = pd ∨ ∃ sub, host = sub ++ "." ++ pd := by
  simp only [Bool.or_eq_true, decide_eq_true_eq, jsEndsWith_iff]
  constructor
  · rintro (h | ⟨u, hu⟩)
    · exact .inl h
    · exact .inr ⟨u, by rw [hu, String.append_assoc]⟩
  · rintro (h | ⟨sub, hs⟩)
    · exact .inl h
    · exact .inr ⟨sub, by rw [hs, String.append_assoc]⟩

/-- The code's path test (`normalizedPath === patternPath ||
normalizedPath.startsWith(patternPath + '/')`) holds exactly when the stripped
path equals the pattern path or extends it past a `/`. -/
theorem pathMatch_iff (np pp : String) :
    (np = pp || jsStartsWith np (pp ++ "/")) = true ↔
      np = pp ∨ ∃ rest, np = pp ++ "/" ++ rest := by
  simp only [Bool.or_eq_true, decide_eq_true_eq, jsStartsWith_iff]

/-- Specification-side reading of the Site Pattern Matcher contract: the
destination's domain equals the pattern's domain or is a subdomain of it, and,
when the pattern carries a path, the destination's path with its leading slash
stripped equals the pattern path or extends it past a `/` separator. -/
def sitePatternSpec (host path pattern : String) : Prop :=
  (host = patternDomain pattern ∨ ∃ sub, host = sub ++ "." ++ patternDomain pattern)
  ∧ (patternPath pattern = "" ∨
      stripLeadingSlash path = patternPath pattern ∨
      ∃ rest, stripLeadingSlash path = patternPath pattern ++ "/" ++ rest)

/-- C3: for every parseable destination URL (with non-empty host) and
non-empty pattern, `matchesSitePattern` returns true exactly when the
destination's domain equals the pattern's domain or is a subdomain of it
(never mere substring containment), and, when the pattern carries a path, the
destination's path with its leading slash stripped equals the pattern path or
starts with the pattern path followed by `/`. -/
theorem matchesSitePattern_spec (u : URLParts) (pattern : String)
    (hd : u.hostname ≠ "") (hp : pattern ≠ "") :
    matchesSitePattern (some u) pattern = true ↔
      sitePatternSpec u.hostname u.pathname pattern := by
  simp only [matchesSitePattern, extractDomain, extractPath]
  unfold sitePatternSpec
  split_ifs with h0 h1 h2
  · exact absurd h0 (by simp [hd, hp])
  · simp only [Bool.not_eq_eq_eq_not, Bool.not_true, Bool.or_eq_false_iff] at h1
    simp only [false_iff, not_and_or]
    refine .inl fun hdom => ?_
    have hb := (domainMatch_iff u.hostname (patternDomain pattern)).mpr hdom
    rw [Bool.or_eq_true] at hb
    rcases hb with h | h
    · rw [h1.1] at h
      exact Bool.false_ne_true h
    · rw [h1.2] at h
      exact Bool.false_ne_true h
  · simp only [Bool.not_eq_true, Bool.not_eq_false', Bool.not_eq_false] at h1
    simp only [true_iff]
    exact ⟨(domainMatch_iff _ _).mp h1, .inl h2⟩
  · simp only [Bool.not_eq_true, Bool.not_eq_false', Bool.not_eq_false] at h1
    rw [pathMatch_iff]
    constructor
    · intro h
      exact ⟨(domainMatch_iff _ _).mp h1, .inr h⟩
    · rintro ⟨-, h | h⟩
      · exact absurd h h2
      · exact h

/-- Witness for `matchesSitePattern_spec` at the concrete destination
`https://chat.discord.com/` against the pattern `discord.com`. -/
theorem matchesSitePattern_spec_witness :
    sitePatternSpec "chat.discord.com" "/" "discord.com" :=
  (matchesSitePattern_spec ⟨"chat.discord.com", "/"⟩ "discord.com"
    (by decide) (by decide)).mp (by decide)

/-- C8: a destination URL the platform parser rejects (including the empty
string, which is unparseable) is modelled by `none` and makes
`matchesSitePattern` return false, as does an empty pattern; the embedded
functions are total, so no exception arises; and `extractDomain` /
`extractPath` return the empty string on parse failure. -/
theorem matcher_failure_defaults :
    (∀ pattern : String, matchesSitePattern none pattern = false)
    ∧ (∀ url : Option URLParts, matchesSitePattern url "" = false)
    ∧ extractDomain none = "" ∧ extractPath none = "" := by
  refine ⟨fun pattern => ?_, fun url => ?_, rfl, rfl⟩
  · simp [matchesSitePattern, extractDomain]
  · cases url <;> simp [matchesSitePattern, extractDomain, extractPath]

/-- C2: in non-strict mode the remaining allowance is
`max 0 (maxAccesses - n)` where `n` counts the records whose site
string-equals the target site and whose timestamp is at least
`now - durationMinutes * 60000` (window boundary inclusive), and the result
always lies in `[0, maxAccesses]`. -/
theorem calculateRemainingAccesses_nonstrict_spec (records : List AccessLog)
    (maxAccesses durationMinutes : Int) (sites : List String) (site : String)
    (now : Instant) (hmax : 0 ≤ maxAccesses) (hdur : 0 < durationMinutes) :
    calculateRemainingAccesses records maxAccesses durationMinutes false sites site now =
      max 0 (maxAccesses -
        (records.filter fun r =>
          decide (r.site = site ∧ now.epochMs - durationMinutes * 60000 ≤ r.timestamp)).length)
    ∧ 0 ≤ calculateRemainingAccesses records maxAccesses durationMinutes false sites site now
    ∧ calculateRemainingAccesses records maxAccesses durationMinutes false sites site now ≤
        maxAccesses := by
  have key : calculateRemainingAccesses records maxAccesses durationMinutes false sites site now =
      max 0 (maxAccesses -
        (records.filter fun r =>
          decide (r.site = site ∧ now.epochMs - durationMinutes * 60000 ≤ r.timestamp)).length) := by
    unfold calculateRemainingAccesses filterAccessesInWindow
    simp only [Bool.false_eq_true, if_false, List.filter_filter]
    have hfun : (fun a : AccessLog =>
        decide (a.site = site) &&
          decide (now.epochMs - durationMinutes * 60 * 1000 ≤ a.timestamp)) =
        fun r : AccessLog =>
          decide (r.site = site ∧ now.epochMs - durationMinutes * 60000 ≤ r.timestamp) := by
      funext r
      have h : now.epochMs - durationMinutes * 60 * 1000 =
          now.epochMs - durationMinutes * 60000 := by ring
      rw [Bool.decide_and, h]
    rw [hfun]
  refine ⟨key, ?_, ?_⟩
  · rw [key]
    exact le_max_left 0 _
  · rw [key]
    refine max_le hmax (sub_le_self maxAccesses ?_)
    exact Int.natCast_nonneg _

/-- Witness for `calculateRemainingAccesses_nonstrict_spec`: three records,
one on the target site inside the 60-minute window, allowance 3. -/
theorem calculateRemainingAccesses_nonstrict_spec_witness :
    calculateRemainingAccesses
        ([⟨"example.com", 9999000, 1⟩, ⟨"other.com", 9998000, 2⟩,
          ⟨"example.com", 1000, 3⟩] : List AccessLog)
        3 60 false ["example.com"] "example.com" ⟨10000000, 1, 10, 0⟩ =
      max 0 (3 -
        (([⟨"example.com", 9999000, 1⟩, ⟨"other.com", 9998000, 2⟩,
           ⟨"example.com", 1000, 3⟩] : List AccessLog).filter fun r =>
          decide (r.site = "example.com" ∧
            (⟨10000000, 1, 10, 0⟩ : Instant).epochMs - 60 * 60000 ≤ r.timestamp)).length)
    ∧ 0 ≤ calculateRemainingAccesses
        ([⟨"example.com", 9999000, 1⟩, ⟨"other.com", 9998000, 2⟩,
          ⟨"example.com", 1000, 3⟩] : List AccessLog)
        3 60 false ["example.com"] "example.com" ⟨10000000, 1, 10, 0⟩
    ∧ calculateRemainingAccesses
        ([⟨"example.com", 9999000, 1⟩, ⟨"other.com", 9998000, 2⟩,
          ⟨"example.com", 1000, 3⟩] : List AccessLog)
        3 60 false ["example.com"] "example.com" ⟨10000000, 1, 10, 0⟩ ≤ 3 :=
  calculateRemainingAccesses_nonstrict_spec _ 3 60 ["example.com"] "example.com"
    ⟨10000000, 1, 10, 0⟩ (by decide) (by decide)

/-- The strict-mode relevance test of one pattern never consults the
pattern's path portion: it holds exactly when the access site equals the
pattern's domain portion or is a subdomain of it. -/
theorem strictSiteMatches_iff (accessSite p : String) :
    strictSiteMatches accessSite p = true ↔
      accessSite = patternDomain p ∨ ∃ sub, accessSite = sub ++ "." ++ patternDomain p := by
  rw [← domainMatch_iff accessSite (patternDomain p)]
  simp only [strictSiteMatches]
  rcases Bool.eq_false_or_eq_true
      (decide (accessSite = patternDomain p) ||
        jsEndsWith accessSite ("." ++ patternDomain p)) with h | h <;>
    rw [h] <;> simp

/-- Strict-mode relevance of a record: inside the rolling window and matching
some pattern of the group at domain level. -/
def strictRelevant (sites : List String) (durationMinutes : Int) (now : Instant)
    (r : AccessLog) : Bool :=
  (sites.any fun p => strictSiteMatches r.site p) &&
    (now.epochMs - durationMinutes * 60 * 1000 ≤ r.timestamp)

/-- C4: in strict mode a record is counted toward the shared pool exactly when
it is in the window and its site equals, or is a subdomain of, the domain
portion of at least one pattern of the group, the patterns' path portions
being ignored; and with allowance 5 and four window records spread over two
sibling sites of a strict group, the remaining count for a third member site
is 1. -/
theorem calculateRemainingAccesses_strict_spec (records : List AccessLog)
    (maxAccesses durationMinutes : Int) (sites : List String) (targetSite : String)
    (now : Instant) :
    (calculateRemainingAccesses records maxAccesses durationMinutes true sites targetSite now =
      max 0 (maxAccesses - (records.filter (strictRelevant sites durationMinutes now)).length))
    ∧ (∀ r : AccessLog, strictRelevant sites durationMinutes now r = true ↔
        now.epochMs - durationMinutes * 60 * 1000 ≤ r.timestamp ∧
        ∃ p ∈ sites, r.site = patternDomain p ∨ ∃ sub, r.site = sub ++ "." ++ patternDomain p)
    ∧ getMostRestrictiveCount "instagram.com"
        (some ⟨[⟨"Social", 60, 5, true,
          ["twitter.com", "facebook.com", "instagram.com"], none⟩]⟩)
        [⟨"twitter.com", 9999000, 1⟩, ⟨"twitter.com", 9998000, 2⟩,
         ⟨"facebook.com", 9997000, 3⟩, ⟨"facebook.com", 9996000, 4⟩]
        ⟨10000000, 1, 10, 0⟩ = some 1 := by
  refine ⟨?_, ?_, by decide⟩
  · unfold calculateRemainingAccesses filterAccessesInWindow strictRelevant
    simp [List.filter_filter]
  · intro r
    unfold strictRelevant
    simp only [Bool.and_eq_true, decide_eq_true_eq, List.any_eq_true, strictSiteMatches_iff]
    exact and_comm

/-- Start minute-of-day denoted by a schedule time-range literal; `none` when
the literal is malformed. -/
def rangeStartMinutes (timeRange : String) : Option Int :=
  (parseTimeRange timeRange).bind fun r => timePointMinutes r.1

/-- End minute-of-day denoted by a schedule time-range literal; `none` when
the literal is malformed. -/
def rangeEndMinutes (timeRange : String) : Option Int :=
  (parseTimeRange timeRange).bind fun r => timePointMinutes r.2

/-- A single time-range literal is satisfied exactly when it denotes minute
bounds `s ≤ e`-wise enclosing the instant's minute-of-day, both ends
included. -/
theorem timeRangeSat_iff (t : String) (now : Instant) :
    (match parseTimeRange t with
      | some r => isTimeInRange now r.1 r.2
      | none => false) = true ↔
      ∃ s e, rangeStartMinutes t = some s ∧ rangeEndMinutes t = some e ∧
        s ≤ minuteOfDay now ∧ minuteOfDay now ≤ e := by
  unfold rangeStartMinutes rangeEndMinutes
  cases hpr : parseTimeRange t with
  | none => simp
  | some r =>
    simp only [Option.bind_some]
    unfold isTimeInRange
    cases hs : timePointMinutes r.1 <;> cases he : timePointMinutes r.2 <;>
      simp [hs, he, Bool.and_eq_true, decide_eq_true_eq]

/-- C5: an absent schedule, or one with no day or no time data, is always
active; otherwise the rule is active exactly when the instant's weekday is in
`days` and its minute-of-day lies in at least one time range, both the start
and end minute included. -/
theorem isRuleActiveNow_spec (now : Instant) :
    isRuleActiveNow none now = true
    ∧ (∀ sched : Schedule, sched.days = none ∨ sched.times = none →
        isRuleActiveNow (some sched) now = true)
    ∧ (∀ (sched : Schedule) (ds : List Int) (ts : List String),
        sched.days = some ds → sched.times = some ts →
        (isRuleActiveNow (some sched) now = true ↔
          now.day ∈ ds ∧ ∃ t ∈ ts, ∃ s e, rangeStartMinutes t = some s ∧
            rangeEndMinutes t = some e ∧
            s ≤ minuteOfDay now ∧ minuteOfDay now ≤ e)) := by
  refine ⟨rfl, fun sched h => ?_, fun sched ds ts hds hts => ?_⟩
  · obtain ⟨d, t⟩ := sched
    rcases h with h | h <;> cases d <;> cases t <;> first | rfl | simp_all
  · obtain ⟨d, t⟩ := sched
    obtain rfl : d = some ds := hds
    obtain rfl : t = some ts := hts
    have hred : isRuleActiveNow (some ⟨some ds, some ts⟩) now =
        if !ds.contains now.day then false
        else ts.any fun timeRange =>
          match parseTimeRange timeRange with
          | some r => isTimeInRange now r.1 r.2
          | none => false := rfl
    rw [hred]
    by_cases hmem : now.day ∈ ds
    · rw [if_neg (by simp [List.elem_iff, hmem])]
      simp only [List.any_eq_true, timeRangeSat_iff]
      simp [hmem]
    · rw [if_pos (by simp [List.elem_iff, hmem])]
      simp [hmem]

/-- Witness for `isRuleActiveNow_spec`: a weekday schedule 09:00-17:00 is
active on a Monday at 10:00. -/
theorem isRuleActiveNow_spec_witness :
    isRuleActiveNow (some ⟨some [1], some ["0900-1700"]⟩) ⟨0, 1, 10, 0⟩ = true :=
  ((isRuleActiveNow_spec ⟨0, 1, 10, 0⟩).2.2 ⟨some [1], some ["0900-1700"]⟩
      [1] ["0900-1700"] rfl rfl).mpr
    ⟨by decide, "0900-1700", by decide, 540, 1020, by decide, by decide, by decide, by decide⟩

/-- A rule's remaining allowance is never negative
(`Math.max(0, ...)` clamps). -/
theorem ruleRemaining_nonneg (accessLogs : List AccessLog) (site : String)
    (now : Instant) (rule : RuleGroup) :
    0 ≤ ruleRemaining accessLogs site now rule := by
  unfold ruleRemaining calculateRemainingAccesses
  exact le_max_left 0 _

/-- The rule loop of `shouldBlockAccess` blocks on the first rule (in list
order) whose remaining allowance is `≤ 0`, reporting that rule's fields. -/
theorem shouldBlockLoop_eq_find (accessLogs : List AccessLog) (site : String)
    (now : Instant) (rules : List RuleGroup) :
    shouldBlockLoop accessLogs site now rules =
      match rules.find? (fun r => decide (ruleRemaining accessLogs site now r ≤ 0)) with
      | some r => .blocked (blockReason r.name) r.name r.duration r.maxAccesses
      | none => .allowed := by
  induction rules with
  | nil => rfl
  | cons r rest ih =>
    unfold shouldBlockLoop
    by_cases h : ruleRemaining accessLogs site now r ≤ 0
    · rw [if_pos h, List.find?_cons_of_pos rest (by simp [h])]
    · rw [if_neg h, List.find?_cons_of_neg rest (by simp [h]), ih]

/-- The two exhaustion tests agree: a remaining allowance is `≤ 0` exactly
when it is `0`, because it is clamped at zero. -/
theorem ruleExhausted_pred_eq (accessLogs : List AccessLog) (site : String)
    (now : Instant) :
    (fun r => decide (ruleRemaining accessLogs site now r ≤ 0)) =
      fun r : RuleGroup => decide (ruleRemaining accessLogs site now r = 0) := by
  funext r
  have h0 := ruleRemaining_nonneg accessLogs site now r
  by_cases h : ruleRemaining accessLogs site now r = 0
  · simp [h]
  · have : ¬ruleRemaining accessLogs site now r ≤ 0 := by omega
    simp [h, this]

/-- `shouldBlockAccess` blocks exactly when some active rule's remaining
allowance is zero. -/
theorem shouldBlockAccess_block_iff (site : String) (config : Option Configuration)
    (accessLogs : List AccessLog) (now : Instant) :
    (shouldBlockAccess site config accessLogs now).block = true ↔
      ∃ r ∈ getActiveRulesForSite site config now,
        ruleRemaining accessLogs site now r = 0 := by
  unfold shouldBlockAccess
  cases hact : getActiveRulesForSite site config now with
  | nil => simp [shouldBlockLoop, BlockDecision.block]
  | cons a rest =>
    simp only [List.isEmpty_cons, Bool.false_eq_true, if_false]
    rw [shouldBlockLoop_eq_find, ruleExhausted_pred_eq]
    constructor
    · intro hb
      cases hfind : (a :: rest).find?
          (fun r => decide (ruleRemaining accessLogs site now r = 0)) with
      | none => rw [hfind] at hb; exact absurd hb (by simp [BlockDecision.block])
      | some r =>
        exact ⟨r, List.mem_of_find?_eq_some hfind, by
          simpa using List.find?_some hfind⟩
    · rintro ⟨r, hmem, hr⟩
      have hsome : ((a :: rest).find?
          (fun r => decide (ruleRemaining accessLogs site now r = 0))).isSome = true := by
        rw [List.find?_isSome]
        exact ⟨r, hmem, by simp [hr]⟩
      cases hfind : (a :: rest).find?
          (fun r => decide (ruleRemaining accessLogs site now r = 0)) with
      | none => rw [hfind] at hsome; simp at hsome
      | some r' => simp [BlockDecision.block]

/-- C1: `shouldBlockAccess` returns a blocked decision exactly when some
active rule applicable to the site has remaining allowance `0`, and the
reported reason, rule name, duration and allowance come from the first such
exhausted rule in configuration order. -/
theorem shouldBlockAccess_spec (site : String) (config : Option Configuration)
    (accessLogs : List AccessLog) (now : Instant) :
    ((shouldBlockAccess site config accessLogs now).block = true ↔
      ∃ r ∈ getActiveRulesForSite site config now,
        ruleRemaining accessLogs site now r = 0)
    ∧ (∀ r : RuleGroup,
        (getActiveRulesForSite site config now).find?
            (fun r => decide (ruleRemaining accessLogs site now r = 0)) = some r →
        shouldBlockAccess site config accessLogs now =
          .blocked (blockReason r.name) r.name r.duration r.maxAccesses) := by
  refine ⟨shouldBlockAccess_block_iff site config accessLogs now, fun r hfind => ?_⟩
  unfold shouldBlockAccess
  cases hact : getActiveRulesForSite site config now with
  | nil => rw [hact] at hfind; simp at hfind
  | cons a rest =>
    simp only [List.isEmpty_cons, Bool.false_eq_true, if_false]
    rw [shouldBlockLoop_eq_find, ruleExhausted_pred_eq]
    rw [hact] at hfind
    rw [hfind]

/-- Witness for `shouldBlockAccess_spec`: one exhausted rule on
`example.com` yields the blocked decision carrying that rule's fields. -/
theorem shouldBlockAccess_spec_witness :
    shouldBlockAccess "example.com"
        (some ⟨[⟨"Limit", 60, 3, false, ["example.com"], none⟩]⟩)
        ([⟨"example.com", 9999000, 1⟩, ⟨"example.com", 9998000, 2⟩,
          ⟨"example.com", 9997000, 3⟩] : List AccessLog)
        ⟨10000000, 1, 10, 0⟩ =
      .blocked (blockReason "Limit") "Limit" 60 3 :=
  (shouldBlockAccess_spec "example.com"
      (some ⟨[⟨"Limit", 60, 3, false, ["example.com"], none⟩]⟩)
      ([⟨"example.com", 9999000, 1⟩, ⟨"example.com", 9998000, 2⟩,
        ⟨"example.com", 9997000, 3⟩] : List AccessLog)
      ⟨10000000, 1, 10, 0⟩).2
    ⟨"Limit", 60, 3, false, ["example.com"], none⟩ (by decide)

/-- The `Math.min` fold over a list, started from a finite value, computes a
value that is the start or one of the folded values, and is a lower bound of
all of them. -/
theorem foldl_min_spec (f : RuleGroup → Int) :
    ∀ (l : List RuleGroup) (a : Int),
      (l.foldl (fun v r => min v (f r)) a = a ∨
        ∃ r ∈ l, l.foldl (fun v r => min v (f r)) a = f r)
      ∧ l.foldl (fun v r => min v (f r)) a ≤ a
      ∧ ∀ r ∈ l, l.foldl (fun v r => min v (f r)) a ≤ f r := by
  intro l
  induction l with
  | nil => exact fun a => ⟨.inl rfl, le_refl a, by simp⟩
  | cons x xs ih =>
    intro a
    have h := ih (min a (f x))
    refine ⟨?_, ?_, ?_⟩
    · rcases h.1 with h1 | ⟨r, hr, h1⟩
      · simp only [List.foldl_cons]
        rcases min_cases a (f x) with ⟨hm, _⟩ | ⟨hm, _⟩
        · exact .inl (by rw [h1, hm])
        · exact .inr ⟨x, List.mem_cons_self x xs, by rw [h1, hm]⟩
      · exact .inr ⟨r, List.mem_cons_of_mem x hr, h1⟩
    · simp only [List.foldl_cons]
      exact le_trans h.2.1 (min_le_left a (f x))
    · intro r hr
      rcases List.mem_cons.mp hr with rfl | hr
      · exact le_trans h.2.1 (min_le_right a (f r))
      · exact h.2.2 r hr

/-- The `lowestRemaining` fold, started from `Infinity`, on a `cons` cell. -/
theorem lowestRemainingFold_cons (accessLogs : List AccessLog) (site : String)
    (now : Instant) (x : RuleGroup) (xs : List RuleGroup) :
    lowestRemainingFold accessLogs site now (x :: xs) =
      some (xs.foldl (fun v r => min v (ruleRemaining accessLogs site now r))
        (ruleRemaining accessLogs site now x)) := by
  unfold lowestRemainingFold
  rw [List.foldl_cons]
  generalize ruleRemaining accessLogs site now x = a
  induction xs generalizing a with
  | nil => rfl
  | cons y ys ih => rw [List.foldl_cons, List.foldl_cons]; exact ih _

/-- `getMostRestrictiveCount` is `none` exactly when there is no active rule. -/
theorem getMostRestrictiveCount_none_iff (site : String) (config : Option Configuration)
    (accessLogs : List AccessLog) (now : Instant) :
    getMostRestrictiveCount site config accessLogs now = none ↔
      getActiveRulesForSite site config now = [] := by
  unfold getMostRestrictiveCount
  cases hact : getActiveRulesForSite site config now with
  | nil => simp
  | cons a rest =>
    simp only [lowestRemainingFold_cons, List.length_cons]
    simp

/-- Any value returned by `getMostRestrictiveCount` is the remaining
allowance of some active rule and a lower bound of all of them. -/
theorem getMostRestrictiveCount_some_spec (site : String) (config : Option Configuration)
    (accessLogs : List AccessLog) (now : Instant) (v : Int)
    (hv : getMostRestrictiveCount site config accessLogs now = some v) :
    (∃ r ∈ getActiveRulesForSite site config now,
      v = ruleRemaining accessLogs site now r)
    ∧ ∀ r ∈ getActiveRulesForSite site config now,
        v ≤ ruleRemaining accessLogs site now r := by
  unfold getMostRestrictiveCount at hv
  cases hact : getActiveRulesForSite site config now with
  | nil => rw [hact] at hv; simp at hv
  | cons a rest =>
    rw [hact] at hv
    simp only [lowestRemainingFold_cons, List.length_cons] at hv
    have hne : ¬(rest.length + 1 = 0) := by omega
    rw [if_neg hne] at hv
    simp only [Option.some.injEq] at hv
    have h := foldl_min_spec (ruleRemaining accessLogs site now) rest
      (ruleRemaining accessLogs site now a)
    constructor
    · rcases h.1 with h1 | ⟨r, hr, h1⟩
      · exact ⟨a, List.mem_cons_self a rest, by rw [← hv, h1]⟩
      · exact ⟨r, List.mem_cons_of_mem a hr, by rw [← hv, h1]⟩
    · intro r hr
      rcases List.mem_cons.mp hr with rfl | hr
      · rw [← hv]; exact h.2.1
      · rw [← hv]; exact h.2.2 r hr

/-- C6: `getMostRestrictiveCount` returns `null` exactly when no rule is
active for the site, and otherwise returns the minimum of the remaining
allowances of the active rules, hence a value less than or equal to every
individual active rule's remaining allowance. -/
theorem getMostRestrictiveCount_spec (site : String) (config : Option Configuration)
    (accessLogs : List AccessLog) (now : Instant) :
    (getMostRestrictiveCount site config accessLogs now = none ↔
      getActiveRulesForSite site config now = [])
    ∧ ∀ v : Int, getMostRestrictiveCount site config accessLogs now = some v →
        (∃ r ∈ getActiveRulesForSite site config now,
          v = ruleRemaining accessLogs site now r)
        ∧ ∀ r ∈ getActiveRulesForSite site config now,
            v ≤ ruleRemaining accessLogs site now r :=
  ⟨getMostRestrictiveCount_none_iff site config accessLogs now,
   fun v hv => getMostRestrictiveCount_some_spec site config accessLogs now v hv⟩

/-- Witness for `getMostRestrictiveCount_spec`: with one active rule on
`example.com` holding 2 of 3 accesses, the badge count 1 is attained by and
bounds the active rule's remaining allowance. -/
theorem getMostRestrictiveCount_spec_witness :
    (∃ r ∈ getActiveRulesForSite "example.com"
        (some ⟨[⟨"Simple", 60, 3, false, ["example.com"], none⟩]⟩) ⟨10000000, 1, 10, 0⟩,
      (1 : Int) = ruleRemaining
        ([⟨"example.com", 9999000, 1⟩, ⟨"example.com", 9998000, 2⟩] : List AccessLog)
        "example.com" ⟨10000000, 1, 10, 0⟩ r)
    ∧ ∀ r ∈ getActiveRulesForSite "example.com"
        (some ⟨[⟨"Simple", 60, 3, false, ["example.com"], none⟩]⟩) ⟨10000000, 1, 10, 0⟩,
        (1 : Int) ≤ ruleRemaining
          ([⟨"example.com", 9999000, 1⟩, ⟨"example.com", 9998000, 2⟩] : List AccessLog)
          "example.com" ⟨10000000, 1, 10, 0⟩ r :=
  (getMostRestrictiveCount_spec "example.com"
      (some ⟨[⟨"Simple", 60, 3, false, ["example.com"], none⟩]⟩)
      ([⟨"example.com", 9999000, 1⟩, ⟨"example.com", 9998000, 2⟩] : List AccessLog)
      ⟨10000000, 1, 10, 0⟩).2 1 (by decide)

/-- C10: whenever at least one rule is active for the site, the navigation
decision blocks exactly when the badge count is zero, even though the two
operations may attribute the outcome to different rules. -/
theorem decide_badge_agreement (site : String) (config : Option Configuration)
    (accessLogs : List AccessLog) (now : Instant)
    (h : getActiveRulesForSite site config now ≠ []) :
    ((shouldBlockAccess site config accessLogs now).block = true ↔
      getMostRestrictiveCount site config accessLogs now = some 0) := by
  rw [shouldBlockAccess_block_iff]
  constructor
  · rintro ⟨r, hmem, hr⟩
    cases hv : getMostRestrictiveCount site config accessLogs now with
    | none =>
      exact absurd ((getMostRestrictiveCount_none_iff site config accessLogs now).mp hv) h
    | some v =>
      have hs := getMostRestrictiveCount_some_spec site config accessLogs now v hv
      obtain ⟨r', hr', hv'⟩ := hs.1
      have h1 : v ≤ ruleRemaining accessLogs site now r := hs.2 r hmem
      have h2 := ruleRemaining_nonneg accessLogs site now r'
      have hz : v = 0 := by omega
      rw [hz]
  · intro hv
    have hs := getMostRestrictiveCount_some_spec site config accessLogs now 0 hv
    obtain ⟨r, hmem, hrv⟩ := hs.1
    exact ⟨r, hmem, hrv.symm⟩

/-- Witness for `decide_badge_agreement`: the exhausted single-rule scenario
has one active rule, a blocked decision, and badge count zero. -/
theorem decide_badge_agreement_witness :
    ((shouldBlockAccess "example.com"
        (some ⟨[⟨"Simple", 60, 3, false, ["example.com"], none⟩]⟩)
        ([⟨"example.com", 9999000, 1⟩, ⟨"example.com", 9998000, 2⟩,
          ⟨"example.com", 9997000, 3⟩] : List AccessLog)
        ⟨10000000, 1, 10, 0⟩).block = true ↔
      getMostRestrictiveCount "example.com"
        (some ⟨[⟨"Simple", 60, 3, false, ["example.com"], none⟩]⟩)
        ([⟨"example.com", 9999000, 1⟩, ⟨"example.com", 9998000, 2⟩,
          ⟨"example.com", 9997000, 3⟩] : List AccessLog)
        ⟨10000000, 1, 10, 0⟩ = some 0) :=
  decide_badge_agreement "example.com"
    (some ⟨[⟨"Simple", 60, 3, false, ["example.com"], none⟩]⟩)
    ([⟨"example.com", 9999000, 1⟩, ⟨"example.com", 9998000, 2⟩,
      ⟨"example.com", 9997000, 3⟩] : List AccessLog)
    ⟨10000000, 1, 10, 0⟩ (by decide)

/-- The `relevantLogs` selection of `calculateUnblockTime`: full site-pattern
matching of the synthetic URL `https://` ++ record site against the rule's
patterns in strict mode, exact site equality otherwise. -/
def unblockRelevantLogs (site : String) (rule : RuleGroup)
    (accessLogs : List AccessLog) : List AccessLog :=
  if rule.strictMode then
    accessLogs.filter fun log =>
      rule.sites.any fun pattern => matchesSitePattern (syntheticUrl log.site) pattern
  else
    accessLogs.filter fun log => log.site = site

instance : IsTotal AccessLog (fun a b => a.timestamp ≤ b.timestamp) :=
  ⟨fun a b => le_total a.timestamp b.timestamp⟩

instance : IsTrans AccessLog (fun a b => a.timestamp ≤ b.timestamp) :=
  ⟨fun _ _ _ => le_trans⟩

/-- Counterexample to the frozen C7: in strict mode `calculateUnblockTime`
matches records with the full Site Pattern Matcher on a synthetic URL whose
path is `/`, not with the aggregator's domain-level rule.  A record on
`discord.com` matches the pattern `discord.com/channels` at domain level (the
strict aggregation filter accepts it), yet `calculateUnblockTime` selects no
record and returns `null` instead of the oldest timestamp plus the window. -/
theorem calculateUnblockTime_domain_counterexample :
    strictSiteMatches "discord.com" "discord.com/channels" = true
    ∧ calculateUnblockTime "discord.com"
        ⟨"Chat", 60, 1, true, ["discord.com/channels"], none⟩
        ([⟨"discord.com", 1000, 1⟩] : List AccessLog) = none
    ∧ calculateUnblockTime "discord.com"
        ⟨"Chat", 60, 1, true, ["discord.com/channels"], none⟩
        ([⟨"discord.com", 1000, 1⟩] : List AccessLog) ≠
        some (1000 + 60 * 60 * 1000) := by decide

/-- C7 (amended): `calculateUnblockTime` selects relevant records by full
site-pattern matching of the synthetic URL `https://` ++ record site against
the rule's patterns when `strictMode` is true (which coincides with
domain-level matching for patterns without a path portion and matches no
record for patterns with one) and by exact site equality otherwise, applies no
time-window filtering, and returns the oldest relevant record's timestamp plus
`durationMinutes * 60000`, or `null` when no relevant record exists. -/
theorem calculateUnblockTime_spec (site : String) (rule : RuleGroup)
    (accessLogs : List AccessLog) :
    (calculateUnblockTime site rule accessLogs = none ↔
      unblockRelevantLogs site rule accessLogs = [])
    ∧ ∀ time : Int, calculateUnblockTime site rule accessLogs = some time →
        ∃ log ∈ unblockRelevantLogs site rule accessLogs,
          time = log.timestamp + rule.duration * 60 * 1000 ∧
          ∀ other ∈ unblockRelevantLogs site rule accessLogs,
            log.timestamp ≤ other.timestamp := by
  have heq : calculateUnblockTime site rule accessLogs =
      match (unblockRelevantLogs site rule accessLogs).insertionSort
          (fun a b => a.timestamp ≤ b.timestamp) with
      | [] => none
      | oldest :: _ => some (oldest.timestamp + rule.duration * 60 * 1000) := rfl
  have hperm := List.perm_insertionSort (fun a b : AccessLog => a.timestamp ≤ b.timestamp)
    (unblockRelevantLogs site rule accessLogs)
  have hsort := List.sorted_insertionSort (fun a b : AccessLog => a.timestamp ≤ b.timestamp)
    (unblockRelevantLogs site rule accessLogs)
  rw [heq]
  cases hs : (unblockRelevantLogs site rule accessLogs).insertionSort
      (fun a b => a.timestamp ≤ b.timestamp) with
  | nil =>
    rw [hs] at hperm
    have hrel : unblockRelevantLogs site rule accessLogs = [] :=
      List.perm_nil.mp hperm.symm
    refine ⟨⟨fun _ => hrel, fun _ => rfl⟩, fun time ht => absurd ht (by simp)⟩
  | cons oldest restSorted =>
    rw [hs] at hperm hsort
    have hne : unblockRelevantLogs site rule accessLogs ≠ [] := by
      intro hrel
      rw [hrel] at hperm
      exact List.not_mem_nil oldest (hperm.mem_iff.mp (List.mem_cons_self _ _))
    refine ⟨⟨fun hcontra => absurd hcontra (by simp), fun hrel => absurd hrel hne⟩, ?_⟩
    intro time ht
    have htime : time = oldest.timestamp + rule.duration * 60 * 1000 := by
      simpa using ht.symm
    refine ⟨oldest, hperm.mem_iff.mp (List.mem_cons_self _ _), htime, ?_⟩
    intro other hother
    rcases List.mem_cons.mp (hperm.mem_iff.mpr hother) with rfl | hother'
    · exact le_refl _
    · exact (List.sorted_cons.mp hsort).1 other hother'

/-- Witness for `calculateUnblockTime_spec`: with two records on the site,
the returned instant comes from the older record and bounds both. -/
theorem calculateUnblockTime_spec_witness :
    ∃ log ∈ unblockRelevantLogs "example.com"
        ⟨"Simple", 60, 3, false, ["example.com"], none⟩
        ([⟨"example.com", 9999000, 1⟩, ⟨"example.com", 9997000, 3⟩] : List AccessLog),
      (9997000 + 60 * 60 * 1000 : Int) = log.timestamp + 60 * 60 * 1000 ∧
      ∀ other ∈ unblockRelevantLogs "example.com"
          ⟨"Simple", 60, 3, false, ["example.com"], none⟩
          ([⟨"example.com", 9999000, 1⟩, ⟨"example.com", 9997000, 3⟩] : List AccessLog),
        log.timestamp ≤ other.timestamp :=
  (calculateUnblockTime_spec "example.com"
      ⟨"Simple", 60, 3, false, ["example.com"], none⟩
      ([⟨"example.com", 9999000, 1⟩, ⟨"example.com", 9997000, 3⟩] : List AccessLog)).2
    (9997000 + 60 * 60 * 1000) (by decide)

/-- Witness for `calculateRemainingAccesses_strict_spec`: its shared-pool
scenario instantiated (the theorem applied at arbitrary concrete inputs). -/
theorem calculateRemainingAccesses_strict_spec_witness :
    getMostRestrictiveCount "instagram.com"
      (some ⟨[⟨"Social", 60, 5, true,
        ["twitter.com", "facebook.com", "instagram.com"], none⟩]⟩)
      [⟨"twitter.com", 9999000, 1⟩, ⟨"twitter.com", 9998000, 2⟩,
       ⟨"facebook.com", 9997000, 3⟩, ⟨"facebook.com", 9996000, 4⟩]
      ⟨10000000, 1, 10, 0⟩ = some 1 :=
  (calculateRemainingAccesses_strict_spec [] 0 0 [] "" ⟨0, 0, 0, 0⟩).2.2

/-- First component of the instrumented schedule check: the pure check at the
sample it reads (the sample at its start index). -/
theorem isRuleActiveNowClk_fst (schedule : Option Schedule) (clock : ClockSamples)
    (i : Nat) :
    (isRuleActiveNowClk schedule clock i).1 = isRuleActiveNow schedule (clock i) := by
  cases schedule with
  | none => rfl
  | some sched =>
    cases hd : sched.days <;> cases ht : sched.times <;>
      simp [isRuleActiveNowClk, isRuleActiveNow, hd, ht]

/-- The instrumented aggregator reads one sample and computes the pure result
at that sample. -/
theorem calculateRemainingAccessesClk_eq (accesses : List AccessLog)
    (maxAccesses durationMinutes : Int) (strictMode : Bool) (sites : List String)
    (currentSite : String) (clock : ClockSamples) (i : Nat) :
    calculateRemainingAccessesClk accesses maxAccesses durationMinutes strictMode
        sites currentSite clock i =
      (calculateRemainingAccesses accesses maxAccesses durationMinutes strictMode
        sites currentSite (clock i), i + 1) := rfl

/-- Under a constant clock, the instrumented group filter selects the same
rules as the pure `getActiveRulesForSite` body. -/
theorem groupsFilterClk_fst (site : String) (t : Instant) :
    ∀ (groups : List RuleGroup) (i : Nat),
      (groupsFilterClk site (fun _ => t) groups i).1 =
        groups.filter fun group =>
          if !isRuleActiveNow group.schedule t then false
          else group.sites.any fun pattern =>
            matchesSitePattern (syntheticUrl site) pattern := by
  intro groups
  induction groups with
  | nil => intro i; rfl
  | cons g gs ih =>
    intro i
    simp only [groupsFilterClk, List.filter_cons, isRuleActiveNowClk_fst, ih]

/-- Under a constant clock, the instrumented rule loop decides like the pure
loop at that instant. -/
theorem shouldBlockLoopClk_fst (accessLogs : List AccessLog) (site : String)
    (t : Instant) :
    ∀ (rules : List RuleGroup) (i : Nat),
      (shouldBlockLoopClk accessLogs site (fun _ => t) rules i).1 =
        shouldBlockLoop accessLogs site t rules := by
  intro rules
  induction rules with
  | nil => intro i; rfl
  | cons r rest ih =>
    intro i
    have hrem : calculateRemainingAccessesClk accessLogs r.maxAccesses r.duration
        r.strictMode r.sites site (fun _ => t) i =
        (ruleRemaining accessLogs site t r, i + 1) := rfl
    simp only [shouldBlockLoopClk, shouldBlockLoop, hrem]
    by_cases h : ruleRemaining accessLogs site t r ≤ 0
    · simp [h]
    · simp [h, ih]

/-- Under a constant clock, the instrumented active-rule lookup selects the
same rules as the pure lookup at that instant. -/
theorem getActiveRulesForSiteClk_fst (site : String) (config : Option Configuration)
    (t : Instant) (i : Nat) :
    (getActiveRulesForSiteClk site config (fun _ => t) i).1 =
      getActiveRulesForSite site config t := by
  cases config with
  | none => rfl
  | some c => exact groupsFilterClk_fst site t c.groups i

/-- C9 (amended): the engine is deterministic given the full sequence of
clock samples, and when every sample an evaluation reads returns the same
instant, `shouldBlockAccess` computes the pure single-instant decision of its
explicit arguments, at every start index. -/
theorem shouldBlockAccess_single_instant (site : String) (config : Option Configuration)
    (accessLogs : List AccessLog) (t : Instant) (i : Nat) :
    (shouldBlockAccessClk site config accessLogs (fun _ => t) i).1 =
      shouldBlockAccess site config accessLogs t := by
  have hact := getActiveRulesForSiteClk_fst site config t i
  unfold shouldBlockAccessClk shouldBlockAccess
  simp only [hact]
  by_cases hemp : (getActiveRulesForSite site config t).isEmpty = true
  · rw [if_pos hemp, if_pos hemp]
  · rw [if_neg hemp, if_neg hemp]
    exact shouldBlockLoopClk_fst accessLogs site t _ _

/-- Configuration with a single scheduled always-on rule, used to exhibit the
clock re-sampling of the engine. -/
def resampleCfg : Option Configuration :=
  some ⟨[⟨"Sched", 60, 1, false, ["example.com"],
    some ⟨some [0, 1, 2, 3, 4, 5, 6], some ["0000-2400"]⟩⟩]⟩

/-- A single access record 50 minutes before the first clock sample below. -/
def resampleLogs : List AccessLog :=
  [⟨"example.com", 7000000, 1⟩]

/-- A clock frozen at one instant. -/
def steadyClock : ClockSamples :=
  fun _ => ⟨10000000, 1, 10, 0⟩

/-- A clock that returns the same first sample as `steadyClock` and then
jumps forward far enough to roll the record out of the window. -/
def jumpingClock : ClockSamples :=
  fun i => if i = 0 then ⟨10000000, 1, 10, 0⟩ else ⟨20000000, 1, 10, 0⟩

/-- Counterexample to the frozen C9: evaluating `shouldBlockAccess` on a
single scheduled rule reads the system clock twice (once in the schedule
check, once in the window filter), not at most once, and two runs whose
clocks agree on the first sample — i.e. identical explicit arguments and the
same "current instant" — return different decisions when the clock advances
between the two reads. -/
theorem shouldBlockAccess_resamples_clock_counterexample :
    (shouldBlockAccessClk "example.com" resampleCfg resampleLogs steadyClock 0).2 = 2
    ∧ steadyClock 0 = jumpingClock 0
    ∧ (shouldBlockAccessClk "example.com" resampleCfg resampleLogs steadyClock 0).1 ≠
        (shouldBlockAccessClk "example.com" resampleCfg resampleLogs jumpingClock 0).1 := by
  decide
